import Mathlib

/-!
Verification of the MQTT dashboard core (topic matcher, message store,
MQTT bridge) against its natural-language specification.

The definitions below are shallow embeddings of the TypeScript source:
  * `matchTopic`      — MQTTClient.matchTopic (client mqtt wrapper)
  * `MemStorage`, `storeMessage`, `getMessageHistory` — server/storage.ts
  * `parseJson`, `decodePayload` — the JSON-or-raw-text payload decoding in
    the server mqtt-client message handler (JSON.parse modelled by a parser)
  * `subscribeCall` / `subscribeAck` — MQTTServerClient.subscribe
  * `createTopic`    — MemStorage.createTopic
JavaScript `Date` values are modelled as integer epoch milliseconds.
-/

/-! ## Topic matcher

The source converts an MQTT pattern to a JavaScript regular expression:

    if (pattern === '#') return true;
    const regexPattern = pattern
      .replace(/\+/g, '[^/]+')
      .replace(/\/#$/g, '(/.*)?')
      .replace(/#/g, '.*');
    return new RegExp(`^${regexPattern}$`).test(topic);

We embed the construction as a compilation of the pattern's characters into
regex items and give the items their regular-expression language semantics.
Characters other than `+`, `#` and `.` that carry a special meaning inside a
JavaScript regular expression are outside the model (`compileChar` returns
`none` for them), so `matchTopic` is `Option`-valued: `some b` whenever every
character of the pattern is modelled. -/

/-- A JavaScript line terminator (`\n`, `\r`, U+2028, U+2029): the regex is
built with no flags, so its Dot atoms — the unescaped `.` of the pattern and
the `.` of the inserted `.*` — match every character EXCEPT these.  (The
negated class `[^/]+` is not a Dot atom and does match them.) -/
def isLineTerm (c : Char) : Bool :=
  c == '\n' || c == '\r' || c == '\u2028' || c == '\u2029'

/-- One item of the regular expression built from an MQTT pattern. -/
inductive RItem : Type
  /-- An ordinary character: matches exactly itself. -/
  | lit (c : Char) : RItem
  /-- `.` in the pattern is unescaped, so in the regex it is a Dot atom:
  any one character that is not a line terminator. -/
  | dot : RItem
  /-- `+` is replaced by `[^/]+`: one or more characters none of which is `/`. -/
  | plusSeg : RItem
  /-- `#` (not part of a trailing `/#`) is replaced by `.*`: any sequence of
  non-line-terminator characters. -/
  | anySeq : RItem
  /-- A trailing `/#` is replaced by `(/.*)?`: optionally `/` followed by any
  sequence of non-line-terminator characters. -/
  | optTail : RItem
deriving DecidableEq, Repr

/-- All decompositions of a list into a prefix and the matching suffix. -/
def splits : List Char → List (List Char × List Char)
  | [] => [([], [])]
  | d :: ds => ([], d :: ds) :: (splits ds).map (fun p => (d :: p.1, p.2))

/-- Language semantics of a sequence of regex items against a character list
(the anchored `^...$` test of the source). -/
def rmatch : List RItem → List Char → Bool
  | [], ds => ds.isEmpty
  | RItem.lit c :: rs, ds =>
    match ds with
    | [] => false
    | d :: ds' => c == d && rmatch rs ds'
  | RItem.dot :: rs, ds =>
    match ds with
    | [] => false
    | d :: ds' => !isLineTerm d && rmatch rs ds'
  | RItem.plusSeg :: rs, ds =>
    (splits ds).any (fun p => !p.1.isEmpty && p.1.all (fun c => !(c == '/')) && rmatch rs p.2)
  | RItem.anySeq :: rs, ds =>
    (splits ds).any
      (fun p => p.1.all (fun c => !isLineTerm c) && rmatch rs p.2)
  | RItem.optTail :: rs, ds =>
    rmatch rs ds ||
      (match ds with
       | d :: ds' => d == '/' &&
           (splits ds').any
             (fun p => p.1.all (fun c => !isLineTerm c) && rmatch rs p.2)
       | [] => false)

/-- Characters (other than `+`, `#`, `.`) with a special regular-expression
meaning; the model does not interpret them. -/
def regexSpecial (c : Char) : Bool :=
  c == '\\' || c == '^' || c == '$' || c == '*' || c == '?' || c == '(' ||
  c == ')' || c == '[' || c == ']' || c == '\x7b' || c == '\x7d' || c == '|'

/-- Compile one pattern character to its regex item, following the source's
replacements (`+` → `[^/]+`, `#` → `.*`, everything else copied verbatim into
the regex, where `.` is a Dot atom: any character but a line terminator). -/
def compileChar (c : Char) : Option RItem :=
  if c == '+' then some RItem.plusSeg
  else if c == '#' then some RItem.anySeq
  else if c == '.' then some RItem.dot
  else if regexSpecial c then none
  else some (RItem.lit c)

/-- Compile a character list item by item. -/
def compileChars : List Char → Option (List RItem)
  | [] => some []
  | c :: cs =>
    match compileChar c, compileChars cs with
    | some r, some rs => some (r :: rs)
    | _, _ => none

/-- Does the pattern end in `/#` (the `.replace(/\/#$/g, '(/.*)?')` step)? -/
def endsWithSlashHash (cs : List Char) : Bool :=
  match cs.reverse with
  | a :: b :: _ => a == '#' && b == '/'
  | _ => false

/-- The regex built from an MQTT pattern, as a list of items. A trailing `/#`
becomes the single item `optTail`; elsewhere the characters are compiled one
by one. -/
def compilePattern (p : String) : Option (List RItem) :=
  let cs := p.data
  if endsWithSlashHash cs then
    (compileChars (cs.take (cs.length - 2))).map (fun rs => rs ++ [RItem.optTail])
  else
    compileChars cs

/-- `MQTTClient.matchTopic`: `#` alone matches everything; otherwise the
pattern is compiled to a regex and tested against the whole topic. -/
def matchTopic (pattern topic : String) : Option Bool :=
  if pattern = "#" then some true
  else (compilePattern pattern).map (fun rs => rmatch rs topic.data)

/-! ### Matcher lemmas -/

theorem mem_splits {ds : List Char} {p : List Char × List Char} :
    p ∈ splits ds ↔ p.1 ++ p.2 = ds := by
  induction ds generalizing p with
  | nil =>
    cases p with
    | mk s t => simp [splits, List.append_eq_nil, Prod.ext_iff, and_comm]
  | cons d ds ih =>
    cases p with
    | mk s t =>
      simp only [splits, List.mem_cons, List.mem_map, Prod.mk.injEq]
      constructor
      · rintro (⟨h1, h2⟩ | ⟨q, hq, h1, h2⟩)
        · subst h1; subst h2; rfl
        · subst h1; subst h2
          have := ih.mp hq
          simpa using this
      · intro h
        cases s with
        | nil =>
          exact Or.inl ⟨rfl, by simpa using h⟩
        | cons c s =>
          have hcd : c = d := by
            have := congrArg (fun l => l.head?) h
            simpa using this
          refine Or.inr ⟨(s, t), ih.mpr ?_, by rw [hcd], rfl⟩
          have := congrArg (fun l => l.tail) h
          simpa using this

theorem rmatch_lits_append (cs : List Char) (rs : List RItem) (ds : List Char) :
    rmatch (cs.map RItem.lit ++ rs) (cs ++ ds) = rmatch rs ds := by
  induction cs with
  | nil => simp
  | cons c cs ih => simp [rmatch, ih]

theorem rmatch_lits (cs ds : List Char) :
    rmatch (cs.map RItem.lit) ds = true ↔ ds = cs := by
  induction cs generalizing ds with
  | nil => cases ds <;> simp [rmatch]
  | cons c cs ih =>
    cases ds with
    | nil => simp [rmatch]
    | cons d ds =>
      simp only [List.map_cons, rmatch, Bool.and_eq_true, beq_iff_eq, ih,
        List.cons_eq_cons]
      constructor
      · rintro ⟨h1, h2⟩; exact ⟨h1.symm, h2⟩
      · rintro ⟨h1, h2⟩; exact ⟨h1.symm, h2⟩

theorem rmatch_plusSeg_intro {s t : List Char} {rs : List RItem}
    (hne : s ≠ []) (hs : ∀ c ∈ s, c ≠ '/') (h : rmatch rs t = true) :
    rmatch (RItem.plusSeg :: rs) (s ++ t) = true := by
  simp only [rmatch, List.any_eq_true]
  refine ⟨(s, t), mem_splits.mpr rfl, ?_⟩
  simp only [Bool.and_eq_true, Bool.not_eq_true', List.isEmpty_eq_false,
    List.all_eq_true]
  exact ⟨⟨by simpa using hne, fun c hc => by simpa using hs c hc⟩, h⟩

theorem rmatch_optTail_skip {rs : List RItem} {ds : List Char}
    (h : rmatch rs ds = true) : rmatch (RItem.optTail :: rs) ds = true := by
  simp only [rmatch, Bool.or_eq_true]
  exact Or.inl h

theorem rmatch_optTail_slash {rs : List RItem} {ds t : List Char}
    (h : rmatch rs t = true)
    (hsuf : ∃ s, s ++ t = ds ∧ ∀ c ∈ s, isLineTerm c = false) :
    rmatch (RItem.optTail :: rs) ('/' :: ds) = true := by
  obtain ⟨s, hst, hnl⟩ := hsuf
  simp only [rmatch, Bool.or_eq_true, Bool.and_eq_true, List.any_eq_true]
  refine Or.inr ⟨by simp, ⟨(s, t), mem_splits.mpr hst, ?_, h⟩⟩
  rw [List.all_eq_true]
  intro c hc
  simp [hnl c hc]

/-- A pattern character that is neither an MQTT wildcard nor special inside a
regular expression: it is compiled to a literal item. -/
def plainChar (c : Char) : Bool :=
  !(c == '+') && !(c == '#') && !(c == '.') && !regexSpecial c

theorem compileChars_plain {cs : List Char} (h : ∀ c ∈ cs, plainChar c = true) :
    compileChars cs = some (cs.map RItem.lit) := by
  induction cs with
  | nil => rfl
  | cons c cs ih =>
    have hc := h c (by simp)
    have hcs := ih (fun d hd => h d (by simp [hd]))
    simp only [plainChar, Bool.and_eq_true, Bool.not_eq_true'] at hc
    obtain ⟨⟨⟨h1, h2⟩, h3⟩, h4⟩ := hc
    simp [compileChars, compileChar, h1, h2, h3, h4, hcs]

theorem endsWithSlashHash_plain {cs : List Char}
    (h : ∀ c ∈ cs, plainChar c = true) : endsWithSlashHash cs = false := by
  unfold endsWithSlashHash
  cases hrev : cs.reverse with
  | nil => rfl
  | cons a as =>
    cases as with
    | nil => rfl
    | cons b bs =>
      have ha : a ∈ cs := by
        have : a ∈ cs.reverse := by rw [hrev]; simp
        simpa using this
      by_cases hA : a = '#'
      · subst hA
        exact absurd (h _ ha) (by decide)
      · have : (a == '#') = false := beq_eq_false_iff_ne.mpr hA
        simp [this]

/-! ### Claims C1 and C2 -/

/-- C1 counterexample: the `.*` of the compiled `(/.*)?` is a JavaScript Dot
atom (the regex is built with no flags), so it does not match line
terminators.  The topic consisting of the preceding segment `sensor` followed
by the single additional segment `"a\nb"` therefore does NOT match
`"sensor/#"` — `^sensor(/.*)?$` fails on `"sensor/a\nb"` — refuting the
unqualified "zero or more additional segments". -/
theorem matchTopic_hash_line_terminator_counterexample :
    matchTopic "sensor/#" ("sensor/" ++ "a\nb") = some false := by decide

/-- C1 (amended). Topic Matcher wildcard semantics: `#` alone matches every
topic (it is special-cased before any regex is built); a `+` segment matches
exactly one (nonempty, `/`-free) topic segment — its `[^/]+` is a negated
class and so matches even line terminators — in particular
`matches("sensor/+/temp", "sensor/room1/temp")` is true and
`matches("sensor/+/temp", "sensor/room1/room2/temp")` is false; and a pattern
ending in `/#` matches the preceding segments followed by zero or more
additional segments as long as they contain no line terminator (the `.*` of
the compiled `(/.*)?` is a Dot atom): `matches("sensor/#", "sensor/" ++ r)`
is true for every line-terminator-free `r`, and
`matches("sensor/#", "sensor")` is true. -/
theorem matchTopic_wildcard_semantics :
    (∀ t : String, matchTopic "#" t = some true) ∧
    (∀ s : String, s ≠ "" → (∀ c ∈ s.data, c ≠ '/') →
      matchTopic "sensor/+/temp" ("sensor/" ++ s ++ "/temp") = some true) ∧
    matchTopic "sensor/+/temp" "sensor/room1/temp" = some true ∧
    matchTopic "sensor/+/temp" "sensor/room1/room2/temp" = some false ∧
    (∀ r : String, (∀ c ∈ r.data, isLineTerm c = false) →
      matchTopic "sensor/#" ("sensor/" ++ r) = some true) ∧
    matchTopic "sensor/#" "sensor" = some true := by
  refine ⟨fun t => rfl, ?_, by decide, by decide, ?_, by decide⟩
  · intro s hne hs
    have hc : compilePattern "sensor/+/temp" =
        some ("sensor/".data.map RItem.lit ++
          (RItem.plusSeg :: "/temp".data.map RItem.lit)) := by decide
    have hdata : ("sensor/" ++ s ++ "/temp").data =
        "sensor/".data ++ (s.data ++ "/temp".data) := by
      simp [String.data_append]
    simp only [matchTopic, if_neg (by decide : ¬("sensor/+/temp" : String) = "#"),
      hc, Option.map_some', hdata, Option.some.injEq]
    rw [rmatch_lits_append]
    exact rmatch_plusSeg_intro
      (by simpa [String.ext_iff] using hne) hs
      ((rmatch_lits _ _).mpr rfl)
  · intro r hnl
    have hc : compilePattern "sensor/#" =
        some ("sensor".data.map RItem.lit ++ [RItem.optTail]) := by decide
    have hdata : ("sensor/" ++ r).data =
        "sensor".data ++ ('/' :: r.data) := by
      simp [String.data_append]
    simp only [matchTopic, if_neg (by decide : ¬("sensor/#" : String) = "#"),
      hc, Option.map_some', hdata, Option.some.injEq]
    rw [rmatch_lits_append]
    exact rmatch_optTail_slash (show rmatch [] [] = true from rfl)
      ⟨r.data, by simp, hnl⟩

/-- Witness for C1 (amended) at concrete inputs. -/
theorem matchTopic_wildcard_semantics_witness :
    matchTopic "#" "any/topic" = some true ∧
    matchTopic "sensor/+/temp" ("sensor/" ++ "room1" ++ "/temp") = some true ∧
    matchTopic "sensor/#" ("sensor/" ++ "a/b") = some true :=
  ⟨matchTopic_wildcard_semantics.1 "any/topic",
   matchTopic_wildcard_semantics.2.1 "room1" (by decide) (by decide),
   matchTopic_wildcard_semantics.2.2.2.2.1 "a/b" (by decide)⟩

/-- C2 counterexample: the pattern characters are pasted into the regular
expression unescaped, so the wildcard-free pattern `"a.b"` matches the
different topic `"axb"` (`.` means any character in a regex). -/
theorem matchTopic_unescaped_dot_counterexample :
    matchTopic "a.b" "axb" = some true ∧ ("a.b" : String) ≠ "axb" :=
  ⟨by decide, by decide⟩

/-- C2 (amended). For a pattern all of whose characters are plain — neither
the wildcards `+`/`#` nor characters with a special regular-expression meaning
(`.` included) — matching is exact string equality: `matches(p, t)` is true
iff `p = t`.  (The unescaped construction makes regex-special characters in
the pattern keep their regex meaning, so the original claim fails for them.) -/
theorem matchTopic_plain_exact {p t : String}
    (h : ∀ c ∈ p.data, plainChar c = true) :
    matchTopic p t = some true ↔ p = t := by
  have hne : p ≠ "#" := by
    intro hp; subst hp
    exact absurd (h '#' (by decide)) (by decide)
  simp only [matchTopic, if_neg hne, compilePattern, endsWithSlashHash_plain h,
    Bool.false_eq_true, if_false, compileChars_plain h, Option.map_some',
    Option.some.injEq, rmatch_lits]
  rw [← String.ext_iff, eq_comm]

/-- Witness for C2 (amended) at a concrete input. -/
theorem matchTopic_plain_exact_witness :
    matchTopic "sensor/room" "sensor/room" = some true :=
  (matchTopic_plain_exact (by decide)).mpr rfl

/-! ## Data model

`MQTTMessage` is `{ topic, payload, timestamp? }` (shared/schema.ts); the
payload is an arbitrary JSON value or raw text, the timestamp an optional
`Date`, modelled as epoch milliseconds (`Int`).  JSON values are modelled by
`JsonValue`; JSON numbers are restricted to integers (fractional numbers are
IEEE floats, outside the model). -/

/-- A JSON value, as produced by `JSON.parse`. -/
inductive JsonValue : Type
  | null : JsonValue
  | bool (b : Bool) : JsonValue
  | num (n : Int) : JsonValue
  | str (s : String) : JsonValue
  | arr (elems : List JsonValue) : JsonValue
  | obj (fields : List (String × JsonValue)) : JsonValue

/-- An MQTT message (`MQTTMessageSchema`): topic, decoded payload, optional
timestamp (`none` models an absent/`undefined` timestamp). -/
structure MQTTMessage where
  topic : String
  payload : JsonValue
  timestamp : Option Int

/-- A stored topic row (shared/schema.ts `topics`). -/
structure Topic where
  id : Nat
  path : String
  brokerId : Nat
deriving DecidableEq

/-- A topic insertion request (`InsertTopic`): the row without its id. -/
structure InsertTopic where
  path : String
  brokerId : Nat

/-- The in-memory storage (`MemStorage`), restricted to the fields the claims
are about: the topic map (values in insertion order, as iterated by
`Array.from(this.topics.values())`) with its id counter, and the message
history array. -/
structure MemStorage where
  topics : List Topic
  topicId : Nat
  messages : List MQTTMessage

/-- The freshly constructed `MemStorage` (counters start at 1, everything
empty). -/
def emptyStorage : MemStorage :=
  { topics := [], topicId := 1, messages := [] }

/-! ## Message store -/

/-- `maxHistorySize = 10000`, the message capacity. -/
def maxHistorySize : Nat := 10000

/-- The timestamp defaulting performed at the start of `storeMessage`:
`if (!message.timestamp) message.timestamp = new Date();` (an absent
timestamp is replaced by the current time; a present one — a `Date` is always
truthy — is kept). -/
def stampMessage (now : Int) (m : MQTTMessage) : MQTTMessage :=
  if m.timestamp.isNone then { m with timestamp := some now } else m

/-- The trim step of `storeMessage`: when the length exceeds
`maxHistorySize`, keep only the last `maxHistorySize` entries
(`this.messages.slice(-this.maxHistorySize)`). -/
def trimHistory (msgs : List MQTTMessage) : List MQTTMessage :=
  if msgs.length > maxHistorySize then msgs.drop (msgs.length - maxHistorySize)
  else msgs

/-- `MemStorage.storeMessage`: default the timestamp, push onto the array,
then trim to capacity. -/
def storeMessage (now : Int) (m : MQTTMessage) (st : MemStorage) : MemStorage :=
  { st with messages := trimHistory (st.messages ++ [stampMessage now m]) }

/-- Store a list of messages in order (repeated `storeMessage` calls). -/
def storeAll (now : Int) (ms : List MQTTMessage) (st : MemStorage) : MemStorage :=
  ms.foldl (fun s m => storeMessage now m s) st

/-- The last `n` elements of a list (`Array.prototype.slice(-n)`). -/
def lastN (n : Nat) (l : List α) : List α := l.drop (l.length - n)

/-- The query window's start, `now - window`, following the `switch` in
`getMessageHistory` (unrecognized values fall to the `default` branch, one
hour). -/
def windowStart (now : Int) (timeRange : String) : Int :=
  if timeRange = "1h" then now - 60 * 60 * 1000
  else if timeRange = "6h" then now - 6 * 60 * 60 * 1000
  else if timeRange = "24h" then now - 24 * 60 * 60 * 1000
  else if timeRange = "7d" then now - 7 * 24 * 60 * 60 * 1000
  else now - 60 * 60 * 1000

/-- `MemStorage.getMessageHistory`: filter the retained sequence by
`msg.topic === topic && msg.timestamp && msg.timestamp >= startTime`
(an absent timestamp is falsy; a present `Date` is truthy; note the filter
imposes no upper bound on the timestamp). -/
def getMessageHistory (now : Int) (topic timeRange : String)
    (st : MemStorage) : List MQTTMessage :=
  st.messages.filter (fun msg =>
    msg.topic == topic &&
      (match msg.timestamp with
       | some ts => decide (windowStart now timeRange ≤ ts)
       | none => false))

/-! ### Store lemmas -/

theorem trimHistory_eq_lastN (msgs : List MQTTMessage) :
    trimHistory msgs = lastN maxHistorySize msgs := by
  unfold trimHistory lastN
  by_cases h : msgs.length > maxHistorySize
  · rw [if_pos h]
  · rw [if_neg h]
    have h0 : msgs.length - maxHistorySize = 0 := by omega
    rw [h0, List.drop_zero]

theorem storeMessage_messages (now : Int) (m : MQTTMessage) (st : MemStorage) :
    (storeMessage now m st).messages =
      lastN maxHistorySize (st.messages ++ [stampMessage now m]) :=
  trimHistory_eq_lastN _

theorem storeMessage_length_le (now : Int) (m : MQTTMessage) (st : MemStorage) :
    (storeMessage now m st).messages.length ≤ maxHistorySize := by
  rw [storeMessage_messages]
  unfold lastN
  simp only [List.length_drop, List.length_append, List.length_cons,
    List.length_nil]
  have hpos : 0 < maxHistorySize := by norm_num [maxHistorySize]
  omega

theorem lastN_drop_append {l : List α} {k n : Nat} (xs : List α)
    (h : n + k ≤ l.length) :
    lastN n (l.drop k ++ xs) = lastN n (l ++ xs) := by
  unfold lastN
  rw [List.drop_append_eq_append_drop, List.drop_append_eq_append_drop,
    List.drop_drop]
  have hM : k + ((l.drop k ++ xs).length - n) = (l ++ xs).length - n := by
    simp only [List.length_append, List.length_drop]
    omega
  have hM2 : ((l.drop k ++ xs).length - n) - (l.drop k).length
      = ((l ++ xs).length - n) - l.length := by
    simp only [List.length_append, List.length_drop]
    omega
  rw [hM, hM2]

theorem lastN_lastN_append (n : Nat) (l xs : List α) :
    lastN n (lastN n l ++ xs) = lastN n (l ++ xs) := by
  by_cases h : l.length ≤ n
  · have h0 : l.length - n = 0 := by omega
    show lastN n (l.drop (l.length - n) ++ xs) = _
    rw [h0, List.drop_zero]
  · exact lastN_drop_append xs (by omega)

theorem storeAll_messages (now : Int) (ms : List MQTTMessage) (st : MemStorage)
    (h : st.messages.length ≤ maxHistorySize) :
    (storeAll now ms st).messages =
      lastN maxHistorySize (st.messages ++ ms.map (stampMessage now)) := by
  induction ms generalizing st with
  | nil =>
    simp only [storeAll, List.foldl_nil, List.map_nil, List.append_nil]
    unfold lastN
    have h0 : st.messages.length - maxHistorySize = 0 := by omega
    rw [h0, List.drop_zero]
  | cons m ms ih =>
    show (storeAll now ms (storeMessage now m st)).messages = _
    rw [ih (storeMessage now m st) (storeMessage_length_le now m st),
      storeMessage_messages, lastN_lastN_append]
    simp [List.append_assoc]

/-! ### Claim C3 -/

/-- C3. Message Store capacity and FIFO eviction: after every `storeMessage`
call the store holds at most `maxHistorySize = 10000` messages; the retained
sequence after storing a list of messages into the empty store is exactly the
most recent appends in arrival order (`lastN`); in particular appending
10,001 messages to the empty store leaves exactly 10,000, with only the
single oldest evicted (`drop 1`) and arrival order preserved. -/
theorem messageStore_capacity_fifo :
    maxHistorySize = 10000 ∧
    (∀ (now : Int) (m : MQTTMessage) (st : MemStorage),
      (storeMessage now m st).messages.length ≤ maxHistorySize) ∧
    (∀ (now : Int) (ms : List MQTTMessage),
      (storeAll now ms emptyStorage).messages =
        lastN maxHistorySize (ms.map (stampMessage now))) ∧
    (∀ (now : Int) (ms : List MQTTMessage), ms.length = 10001 →
      (storeAll now ms emptyStorage).messages =
        (ms.map (stampMessage now)).drop 1 ∧
      (storeAll now ms emptyStorage).messages.length = 10000) := by
  have hempty : ∀ now ms, (storeAll now ms emptyStorage).messages =
      lastN maxHistorySize (ms.map (stampMessage now)) := by
    intro now ms
    have h2 := storeAll_messages now ms emptyStorage (Nat.zero_le _)
    rwa [show emptyStorage.messages = [] from rfl, List.nil_append] at h2
  refine ⟨rfl, storeMessage_length_le, hempty, ?_⟩
  intro now ms h
  have hlen : (ms.map (stampMessage now)).length = 10001 := by simp [h]
  constructor
  · rw [hempty]
    unfold lastN
    rw [hlen]
    norm_num [maxHistorySize]
  · rw [hempty]
    unfold lastN
    simp only [List.length_drop, hlen]
    norm_num [maxHistorySize]

/-- A sample message used by witnesses. -/
def sampleMsg : MQTTMessage :=
  { topic := "t", payload := JsonValue.str "x", timestamp := some 0 }

/-! ### Claims C4 and C9 -/

theorem mem_getMessageHistory {now : Int} {topic timeRange : String}
    {st : MemStorage} {m : MQTTMessage} :
    m ∈ getMessageHistory now topic timeRange st ↔
      m ∈ st.messages ∧ m.topic = topic ∧
        ∃ ts, m.timestamp = some ts ∧ windowStart now timeRange ≤ ts := by
  unfold getMessageHistory
  rw [List.mem_filter]
  constructor
  · rintro ⟨hm, hp⟩
    cases hts : m.timestamp with
    | none => rw [hts] at hp; simp at hp
    | some ts =>
      rw [hts] at hp
      simp only [Bool.and_eq_true, beq_iff_eq, decide_eq_true_eq] at hp
      exact ⟨hm, hp.1, ts, rfl, hp.2⟩
  · rintro ⟨hm, ht, ts, hts, hge⟩
    refine ⟨hm, ?_⟩
    rw [hts]
    simp [ht, hge]

/-- C4 (amended). Query semantics of `getMessageHistory`: the window start is
`now - d` with `d` = 1h, 6h, 24h, 7d (in ms) for the four recognized window
values and 1h for any other value; the result is exactly the retained
messages whose topic equals the query topic and whose (present) timestamp is
at least `now - d` — the filter imposes NO upper bound, so messages stamped
after `now` are also returned — in arrival order (a sublist of the retained
sequence); a query against the empty store returns the empty sequence. -/
theorem getMessageHistory_spec :
    (∀ now : Int, windowStart now "1h" = now - 3600000 ∧
      windowStart now "6h" = now - 21600000 ∧
      windowStart now "24h" = now - 86400000 ∧
      windowStart now "7d" = now - 604800000) ∧
    (∀ (now : Int) (tr : String), tr ≠ "1h" → tr ≠ "6h" → tr ≠ "24h" →
      tr ≠ "7d" → windowStart now tr = now - 3600000) ∧
    (∀ (now : Int) (topic tr : String) (st : MemStorage) (m : MQTTMessage),
      m ∈ getMessageHistory now topic tr st ↔
        m ∈ st.messages ∧ m.topic = topic ∧
          ∃ ts, m.timestamp = some ts ∧ windowStart now tr ≤ ts) ∧
    (∀ (now : Int) (topic tr : String) (st : MemStorage),
      (getMessageHistory now topic tr st).Sublist st.messages) ∧
    (∀ (now : Int) (topic tr : String),
      getMessageHistory now topic tr emptyStorage = []) := by
  refine ⟨?_, ?_, ?_, ?_, ?_⟩
  · exact fun now => ⟨rfl, rfl, rfl, rfl⟩
  · intro now tr h1 h2 h3 h4
    unfold windowStart
    rw [if_neg h1, if_neg h2, if_neg h3, if_neg h4]
    norm_num
  · intro now topic tr st m
    exact mem_getMessageHistory
  · intro now topic tr st
    exact List.filter_sublist _
  · intro now topic tr
    rfl

/-- Witness for C4 (amended) at concrete inputs. -/
theorem getMessageHistory_spec_witness :
    windowStart 0 "6h" = 0 - 21600000 ∧
    windowStart 0 "2h" = 0 - 3600000 ∧
    getMessageHistory 0 "t" "1h" emptyStorage = [] :=
  ⟨(getMessageHistory_spec.1 0).2.1,
   getMessageHistory_spec.2.1 0 "2h" (by decide) (by decide) (by decide)
     (by decide),
   getMessageHistory_spec.2.2.2.2 0 "t" "1h"⟩

/-- A message whose timestamp (1 ms) lies after the query time used below
(`now = 0`). -/
def futureMsg : MQTTMessage :=
  { topic := "t", payload := JsonValue.null, timestamp := some 1 }

/-- The store holding only `futureMsg`. -/
def futureStore : MemStorage :=
  { topics := [], topicId := 1, messages := [futureMsg] }

/-- C4 counterexample: the filter checks only `timestamp >= startTime`, never
`timestamp <= now`.  The state `futureStore` is reachable by a single
`storeMessage` call, and a 1-hour query at `now = 0` returns the message with
timestamp 1, which lies outside the claimed window `[now - 1h, now]`
(`¬ 1 ≤ 0`). -/
theorem getMessageHistory_upper_bound_counterexample :
    storeMessage 0 futureMsg emptyStorage = futureStore ∧
    getMessageHistory 0 "t" "1h" futureStore = [futureMsg] ∧
    futureMsg.timestamp = some 1 ∧ ¬((1 : Int) ≤ 0) :=
  ⟨rfl, rfl, rfl, by decide⟩

theorem storeMessage_getLast (now : Int) (m : MQTTMessage) (st : MemStorage) :
    (storeMessage now m st).messages.getLast? = some (stampMessage now m) := by
  rw [storeMessage_messages]
  unfold lastN
  rw [List.getLast?_drop]
  have hlen : (st.messages ++ [stampMessage now m]).length
      = st.messages.length + 1 := by simp
  have hpos : 0 < maxHistorySize := by norm_num [maxHistorySize]
  rw [if_neg (by omega), List.getLast?_concat]

/-- C9. Every message held in the store has a timestamp: `storeMessage`
stamps the current time on a message arriving without one and leaves a
present timestamp (indeed the whole message) unchanged; the appended message
is the stamped one; and if every retained message has a timestamp then this
still holds after any `storeMessage` call, so the query's timestamp-presence
filter never drops a stored message for lacking one. -/
theorem storeMessage_timestamp_total :
    (∀ (now : Int) (m : MQTTMessage), (stampMessage now m).timestamp.isSome) ∧
    (∀ (now : Int) (m : MQTTMessage) (ts : Int), m.timestamp = some ts →
      stampMessage now m = m) ∧
    (∀ (now : Int) (m : MQTTMessage), m.timestamp = none →
      (stampMessage now m).timestamp = some now) ∧
    (∀ (now : Int) (m : MQTTMessage) (st : MemStorage),
      (storeMessage now m st).messages.getLast? = some (stampMessage now m)) ∧
    (∀ (now : Int) (m : MQTTMessage) (st : MemStorage),
      (∀ x ∈ st.messages, x.timestamp.isSome) →
      ∀ x ∈ (storeMessage now m st).messages, x.timestamp.isSome) := by
  have hstamp : ∀ (now : Int) (m : MQTTMessage),
      (stampMessage now m).timestamp.isSome := by
    intro now m
    unfold stampMessage
    cases h : m.timestamp with
    | none => simp
    | some ts => simp [h]
  refine ⟨hstamp, ?_, ?_, ?_, ?_⟩
  · intro now m ts h
    unfold stampMessage
    rw [h]
    rfl
  · intro now m h
    unfold stampMessage
    rw [h]
    rfl
  · exact storeMessage_getLast
  · intro now m st h x hx
    rw [storeMessage_messages] at hx
    have hx2 := List.mem_of_mem_drop hx
    rcases List.mem_append.mp hx2 with h1 | h1
    · exact h x h1
    · rw [List.mem_singleton.mp h1]
      exact hstamp now m

/-! ### Claim C10 -/

/-- `MemStorage.createTopic`: if a topic with the requested path already
exists (first match over the map's values in insertion order), return it and
change nothing; otherwise insert a new topic under the next id and bump the
counter (`const id = this.topicId++`; `Map.set` with a fresh key appends in
iteration order). -/
def createTopic (st : MemStorage) (t : InsertTopic) : Topic × MemStorage :=
  match st.topics.find? (fun x => x.path == t.path) with
  | some existing => (existing, st)
  | none =>
    let newTopic : Topic :=
      { id := st.topicId, path := t.path, brokerId := t.brokerId }
    (newTopic,
      { st with topics := st.topics ++ [newTopic], topicId := st.topicId + 1 })

/-- C10. `createTopic` is idempotent on topic path: when some stored topic
has the requested path, the first such topic is returned and the whole
storage (collection and id counter) is unchanged; only when no topic has the
path is a new topic inserted, under the current counter value as its fresh
id, with the counter incremented. -/
theorem createTopic_idempotent :
    (∀ (st : MemStorage) (t : InsertTopic),
      (∃ x ∈ st.topics, x.path = t.path) →
      (createTopic st t).2 = st ∧
      (createTopic st t).1 ∈ st.topics ∧
      (createTopic st t).1.path = t.path) ∧
    (∀ (st : MemStorage) (t : InsertTopic),
      (∀ x ∈ st.topics, x.path ≠ t.path) →
      (createTopic st t).1 =
        { id := st.topicId, path := t.path, brokerId := t.brokerId } ∧
      (createTopic st t).2.topics = st.topics ++ [(createTopic st t).1] ∧
      (createTopic st t).2.topicId = st.topicId + 1 ∧
      (createTopic st t).2.messages = st.messages) := by
  constructor
  · intro st t h
    have hsome : (st.topics.find? (fun x => x.path == t.path)).isSome := by
      rw [List.find?_isSome]
      obtain ⟨x, hx, hp⟩ := h
      exact ⟨x, hx, by simp [hp]⟩
    obtain ⟨ex, hex⟩ := Option.isSome_iff_exists.mp hsome
    have hmem := List.mem_of_find?_eq_some hex
    have hpath := List.find?_some hex
    unfold createTopic
    rw [hex]
    exact ⟨rfl, hmem, by simpa using hpath⟩
  · intro st t h
    have hnone : st.topics.find? (fun x => x.path == t.path) = none := by
      rw [List.find?_eq_none]
      intro x hx
      simp [h x hx]
    unfold createTopic
    rw [hnone]
    exact ⟨rfl, rfl, rfl, rfl⟩

/-- A stored topic used by the C10 witness. -/
def topicA : Topic := { id := 1, path := "a/b", brokerId := 1 }

/-- A storage already holding `topicA`. -/
def storeWithTopic : MemStorage :=
  { topics := [topicA], topicId := 2, messages := [] }

/-- Witness for C10 at concrete inputs: inserting an existing path changes
nothing; inserting into the empty store bumps the counter from 1 to 2. -/
theorem createTopic_idempotent_witness :
    (createTopic storeWithTopic { path := "a/b", brokerId := 1 }).2
      = storeWithTopic ∧
    (createTopic emptyStorage { path := "a/b", brokerId := 1 }).2.topicId
      = 2 :=
  ⟨(createTopic_idempotent.1 storeWithTopic { path := "a/b", brokerId := 1 }
      ⟨topicA, List.mem_singleton_self topicA, rfl⟩).1,
   ((createTopic_idempotent.2 emptyStorage { path := "a/b", brokerId := 1 }
      (fun x hx => absurd hx (List.not_mem_nil x))).2.2.1).trans rfl⟩

/-! ## Payload decoding

The server message handler decodes an incoming payload with
`JSON.parse(payload.toString())` and falls back to the raw text when parsing
throws.  `JSON.parse` is the JavaScript runtime's strict JSON parser; we
model it with `parseJson`.  Documented restrictions of the model: JSON
numbers are integers (fractional/exponent forms involve IEEE floats, outside
the model) and `\uXXXX` escapes map code units directly to characters (no
surrogate-pair combination). -/

/-- JSON insignificant whitespace. -/
def isJsonWs (c : Char) : Bool :=
  c == ' ' || c == '\t' || c == '\n' || c == '\r'

/-- Drop leading JSON whitespace. -/
def skipWs : List Char → List Char
  | [] => []
  | c :: cs => if isJsonWs c then skipWs cs else c :: cs

/-- Decimal digit test. -/
def isDigitChar (c : Char) : Bool := '0' ≤ c && c ≤ '9'

/-- Take the maximal run of leading decimal digits. -/
def takeDigits : List Char → List Char × List Char
  | [] => ([], [])
  | c :: cs =>
    if isDigitChar c then
      (c :: (takeDigits cs).1, (takeDigits cs).2)
    else ([], c :: cs)

/-- Value of a digit run. -/
def digitsToNat (ds : List Char) : Nat :=
  ds.foldl (fun acc c => 10 * acc + (c.toNat - '0'.toNat)) 0

/-- Parse an unsigned JSON integer literal: at least one digit, no redundant
leading zero (`JSON.parse("042")` throws). -/
def parseNat (cs : List Char) : Option (Nat × List Char) :=
  match takeDigits cs with
  | ([], _) => none
  | (ds, rest) =>
    if 1 < ds.length && ds.headD '0' == '0' then none
    else some (digitsToNat ds, rest)

/-- Parse a JSON integer literal with optional leading minus. -/
def parseIntLit (cs : List Char) : Option (Int × List Char) :=
  match cs with
  | [] => none
  | c :: rest =>
    if c == '-' then (parseNat rest).map (fun p => (-(p.1 : Int), p.2))
    else (parseNat cs).map (fun p => ((p.1 : Int), p.2))

/-- Value of a hexadecimal digit. -/
def hexDigitVal (c : Char) : Option Nat :=
  if '0' ≤ c ∧ c ≤ '9' then some (c.toNat - '0'.toNat)
  else if 'a' ≤ c ∧ c ≤ 'f' then some (c.toNat - 'a'.toNat + 10)
  else if 'A' ≤ c ∧ c ≤ 'F' then some (c.toNat - 'A'.toNat + 10)
  else none

/-- Single-character JSON string escapes (quote, backslash, slash, and the
control abbreviations), as a lookup table. -/
def escCharMap (c : Char) : Option Char :=
  List.lookup c
    [('b', Char.ofNat 8), ('f', Char.ofNat 12), ('n', '\n'), ('r', '\r'),
     ('t', '\t'), ('"', '"'), ('/', '/'), ('\\', '\\')]

/-- Parse the body of a JSON string after the opening quote; raw control
characters are invalid. -/
def parseStringBody : Nat → List Char → Option (List Char × List Char)
  | 0, _ => none
  | _ + 1, [] => none
  | fuel + 1, c :: rest =>
    if c == '"' then some ([], rest)
    else if c == '\\' then
      match rest with
      | [] => none
      | e :: rest2 =>
        if e == 'u' then
          match rest2 with
          | h1 :: h2 :: h3 :: h4 :: rest3 =>
            match hexDigitVal h1, hexDigitVal h2, hexDigitVal h3,
                hexDigitVal h4 with
            | some a, some b, some u, some d =>
              (parseStringBody fuel rest3).map
                (fun p =>
                  (Char.ofNat (((a * 16 + b) * 16 + u) * 16 + d) :: p.1, p.2))
            | _, _, _, _ => none
          | _ => none
        else
          match escCharMap e with
          | some ec => (parseStringBody fuel rest2).map
              (fun p => (ec :: p.1, p.2))
          | none => none
    else if c.toNat < 32 then none
    else (parseStringBody fuel rest).map (fun p => (c :: p.1, p.2))

/-- Match an expected literal character sequence. -/
def dropLit : List Char → List Char → Option (List Char)
  | [], cs => some cs
  | _ :: _, [] => none
  | l :: ls, c :: cs => if c == l then dropLit ls cs else none

mutual

/-- Parse one JSON value, returning it and the unconsumed input. -/
def parseValue : Nat → List Char → Option (JsonValue × List Char)
  | 0, _ => none
  | fuel + 1, cs =>
    match skipWs cs with
    | [] => none
    | c :: rest =>
      if c == 'n' then
        (dropLit ['u', 'l', 'l'] rest).map (fun r => (JsonValue.null, r))
      else if c == 't' then
        (dropLit ['r', 'u', 'e'] rest).map (fun r => (JsonValue.bool true, r))
      else if c == 'f' then
        (dropLit ['a', 'l', 's', 'e'] rest).map
          (fun r => (JsonValue.bool false, r))
      else if c == '"' then
        (parseStringBody (fuel + 1) rest).map
          (fun p => (JsonValue.str (String.mk p.1), p.2))
      else if c == '[' then
        match skipWs rest with
        | [] => none
        | d :: rest2 =>
          if d == ']' then some (JsonValue.arr [], rest2)
          else (parseElems fuel (skipWs rest)).map
            (fun p => (JsonValue.arr p.1, p.2))
      else if c == '\x7b' then
        match skipWs rest with
        | [] => none
        | d :: rest2 =>
          if d == '\x7d' then some (JsonValue.obj [], rest2)
          else (parseFields fuel (skipWs rest)).map
            (fun p => (JsonValue.obj p.1, p.2))
      else if c == '-' || isDigitChar c then
        (parseIntLit (c :: rest)).map (fun p => (JsonValue.num p.1, p.2))
      else none

/-- Parse a nonempty comma-separated element list up to the closing `]`. -/
def parseElems : Nat → List Char → Option (List JsonValue × List Char)
  | 0, _ => none
  | fuel + 1, cs =>
    match parseValue fuel cs with
    | none => none
    | some (v, rest) =>
      match skipWs rest with
      | [] => none
      | d :: rest2 =>
        if d == ',' then
          (parseElems fuel rest2).map (fun p => (v :: p.1, p.2))
        else if d == ']' then some ([v], rest2)
        else none

/-- Parse a nonempty comma-separated field list up to the closing brace. -/
def parseFields : Nat → List Char →
    Option (List (String × JsonValue) × List Char)
  | 0, _ => none
  | fuel + 1, cs =>
    match skipWs cs with
    | [] => none
    | d :: rest =>
      if d == '"' then
        match parseStringBody (fuel + 1) rest with
        | none => none
        | some (key, rest2) =>
          match skipWs rest2 with
          | [] => none
          | e :: rest3 =>
            if e == ':' then
              match parseValue fuel rest3 with
              | none => none
              | some (v, rest4) =>
                match skipWs rest4 with
                | [] => none
                | f :: rest5 =>
                  if f == ',' then
                    (parseFields fuel rest5).map
                      (fun p => ((String.mk key, v) :: p.1, p.2))
                  else if f == '\x7d' then
                    some ([(String.mk key, v)], rest5)
                  else none
            else none
      else none

end

/-- `JSON.parse` model: parse one value and require only whitespace to
remain. -/
def parseJson (s : String) : Option JsonValue :=
  match parseValue (s.data.length + 1) s.data with
  | some (v, rest) => if (skipWs rest).isEmpty then some v else none
  | none => none

/-- The payload decoding in the message handler:
`try { parsedPayload = JSON.parse(payload.toString()) } catch { parsedPayload
= payload.toString() }`. -/
def decodePayload (s : String) : JsonValue :=
  match parseJson s with
  | some v => v
  | none => JsonValue.str s

/-- The `MQTTMessage` constructed by the handler for an incoming
`(topic, payload)`: decoded payload, timestamp `new Date()`. -/
def mkReceivedMessage (now : Int) (topic payloadText : String) : MQTTMessage :=
  { topic := topic, payload := decodePayload payloadText,
    timestamp := some now }

example : parseJson "42" = some (JsonValue.num 42) := rfl
example : parseJson "not json" = none := rfl
example : parseJson " [1, 2, -3] " =
    some (JsonValue.arr [JsonValue.num 1, JsonValue.num 2,
      JsonValue.num (-3)]) := rfl
example : parseJson "\x7b\"a\": null, \"b\": [true, \"x\"]\x7d" =
    some (JsonValue.obj [("a", JsonValue.null),
      ("b", JsonValue.arr [JsonValue.bool true, JsonValue.str "x"])]) := rfl
example : parseJson "042" = none := rfl
example : parseJson "\"a\\nb\"" = some (JsonValue.str "a\nb") := rfl

/-- A message arriving without a timestamp. -/
def bareMsg : MQTTMessage :=
  { topic := "t", payload := JsonValue.null, timestamp := none }

/-- Witness for C9 at concrete inputs. -/
theorem storeMessage_timestamp_total_witness :
    stampMessage 5 sampleMsg = sampleMsg ∧
    (stampMessage 5 bareMsg).timestamp = some 5 ∧
    ∀ x ∈ (storeMessage 5 bareMsg emptyStorage).messages,
      x.timestamp.isSome :=
  ⟨storeMessage_timestamp_total.2.1 5 sampleMsg 0 rfl,
   storeMessage_timestamp_total.2.2.1 5 bareMsg rfl,
   storeMessage_timestamp_total.2.2.2.2 5 bareMsg emptyStorage
     (fun x hx => absurd hx (List.not_mem_nil x))⟩

/-- Witness for C3 at concrete inputs. -/
theorem messageStore_capacity_fifo_witness :
    (storeMessage 0 sampleMsg emptyStorage).messages.length ≤ maxHistorySize ∧
    (storeAll 0 (List.replicate 10001 sampleMsg) emptyStorage).messages.length
      = 10000 :=
  ⟨messageStore_capacity_fifo.2.1 0 sampleMsg emptyStorage,
   (messageStore_capacity_fifo.2.2.2 0 (List.replicate 10001 sampleMsg)
     (List.length_replicate 10001 sampleMsg)).2⟩


/-! ### Claim C5 -/

/-- C5. Payload decoding with raw-text fallback: the payload of the Message
constructed for a received broker message equals the parsed JSON value when
the payload text is valid JSON and the raw text verbatim otherwise; payload
text `"42"` decodes to the JSON number 42 and `"not json"` to the raw
string. -/
theorem payload_decoding :
    (∀ (now : Int) (topic s : String) (v : JsonValue),
      parseJson s = some v → (mkReceivedMessage now topic s).payload = v) ∧
    (∀ (now : Int) (topic s : String),
      parseJson s = none →
        (mkReceivedMessage now topic s).payload = JsonValue.str s) ∧
    (∀ (now : Int) (topic : String),
      (mkReceivedMessage now topic "42").payload = JsonValue.num 42) ∧
    (∀ (now : Int) (topic : String),
      (mkReceivedMessage now topic "not json").payload
        = JsonValue.str "not json") := by
  refine ⟨?_, ?_, fun now topic => rfl, fun now topic => rfl⟩
  · intro now topic s v h
    show decodePayload s = v
    unfold decodePayload
    rw [h]
  · intro now topic s h
    show decodePayload s = JsonValue.str s
    unfold decodePayload
    rw [h]

/-- Witness for C5 at concrete inputs. -/
theorem payload_decoding_witness :
    (mkReceivedMessage 0 "a" "42").payload = JsonValue.num 42 ∧
    (mkReceivedMessage 0 "a" "not json").payload = JsonValue.str "not json" :=
  ⟨payload_decoding.1 0 "a" "42" (JsonValue.num 42) rfl,
   payload_decoding.2.1 0 "a" "not json" rfl⟩

/-! ## Listener fan-out (claim C6) -/

/-- A local message listener; `Except.error` models a thrown exception. -/
def Listener : Type := MQTTMessage → Except String Unit

/-- The handler's fan-out loop:
`this.messageListeners.forEach(listener => { try { listener(message) } catch
(err) { log(...) } })` — each call is wrapped in its own try/catch, so the
iteration continues past a throwing listener; outcomes are recorded in
registration order. -/
def notifyListeners : List Listener → MQTTMessage → List (Except String Unit)
  | [], _ => []
  | l :: ls, m => l m :: notifyListeners ls m

/-- The whole message handler: build the Message (decoded payload, current
time as timestamp), append it to the store
(`storage.storeMessage(message).catch(...)` — failures are swallowed and do
not reach the fan-out), then notify every listener. -/
def handleIncoming (now : Int) (ls : List Listener) (topic payloadText : String)
    (st : MemStorage) : MemStorage × List (Except String Unit) :=
  (storeMessage now (mkReceivedMessage now topic payloadText) st,
   notifyListeners ls (mkReceivedMessage now topic payloadText))

theorem notifyListeners_length (ls : List Listener) (m : MQTTMessage) :
    (notifyListeners ls m).length = ls.length := by
  induction ls with
  | nil => rfl
  | cons l ls ih => simp [notifyListeners, ih]

theorem notifyListeners_getElem (ls : List Listener) (m : MQTTMessage)
    (i : Nat) : (notifyListeners ls m)[i]? = (ls[i]?).map (fun l => l m) := by
  induction ls generalizing i with
  | nil => simp [notifyListeners]
  | cons l ls ih =>
    cases i with
    | zero => simp [notifyListeners]
    | succ j => simpa [notifyListeners] using ih j

/-- C6. Listener fan-out isolation: every received message is handed to the
store and delivered to all registered listeners in registration order; the
i-th recorded outcome is the i-th listener applied to the message, whatever
the other listeners did; with three listeners of which the second throws,
the first and third still receive the message; and the message is persisted
(it is the newest entry of the store) regardless of the listeners. -/
theorem listener_fanout_isolation :
    (∀ (ls : List Listener) (m : MQTTMessage),
      (notifyListeners ls m).length = ls.length) ∧
    (∀ (ls : List Listener) (m : MQTTMessage) (i : Nat),
      (notifyListeners ls m)[i]? = (ls[i]?).map (fun l => l m)) ∧
    (∀ (l1 l3 : Listener) (e : String) (m : MQTTMessage),
      notifyListeners [l1, fun _ => Except.error e, l3] m
        = [l1 m, Except.error e, l3 m]) ∧
    (∀ (now : Int) (ls : List Listener) (topic s : String) (st : MemStorage),
      (handleIncoming now ls topic s st).1.messages.getLast?
        = some (mkReceivedMessage now topic s) ∧
      (handleIncoming now ls topic s st).2
        = notifyListeners ls (mkReceivedMessage now topic s)) := by
  refine ⟨notifyListeners_length, notifyListeners_getElem,
    fun l1 l3 e m => rfl, ?_⟩
  intro now ls topic s st
  exact ⟨storeMessage_getLast now (mkReceivedMessage now topic s) st, rfl⟩

/-! ## Subscriptions (claims C7 and C8) -/

/-- The server client's subscription-relevant state: whether the MQTT client
is connected, and the `subscribedTopics` set (a JS `Set`, iterated in
insertion order). -/
structure ClientState where
  connected : Bool
  subscribedTopics : List String
deriving DecidableEq

/-- JS `Set.prototype.add`: no-op when the element is present, else append. -/
def setAdd (l : List String) (x : String) : List String :=
  if x ∈ l then l else l ++ [x]

/-- The synchronous part of `MQTTServerClient.subscribe`: report failure
without any effect when not connected; otherwise issue the broker request
and return `true` immediately.  The local subscription set is NOT touched
here. -/
def subscribeCall (c : ClientState) (_topic : String) : Bool × ClientState :=
  if c.connected then (true, c) else (false, c)

/-- The subscription callback (`this.client.subscribe(topic, err => ...)`):
a broker error is only logged; on success the topic is added to the
subscription set. -/
def subscribeAck (c : ClientState) (topic : String) (err : Bool) : ClientState :=
  if err then c
  else { c with subscribedTopics := setAdd c.subscribedTopics topic }

/-- A successful subscribe as observed once the broker acknowledgment has
arrived: the synchronous call followed by the no-error callback. -/
def subscribeSuccess (c : ClientState) (topic : String) : ClientState :=
  subscribeAck (subscribeCall c topic).2 topic false

/-- A connected client with no subscriptions yet. -/
def connectedEmpty : ClientState :=
  { connected := true, subscribedTopics := [] }

/-- C7 counterexample: with an active connection, `subscribe("sensor/+")`
returns `true`, yet right after the call the local subscription set is still
empty — the set is NOT updated optimistically.  It is updated only by a
success acknowledgment; an error acknowledgment leaves the client unchanged
(nothing is "corrected"). -/
theorem subscribe_not_optimistic_counterexample :
    (subscribeCall connectedEmpty "sensor/+").1 = true ∧
    (subscribeCall connectedEmpty "sensor/+").2.subscribedTopics = [] ∧
    subscribeAck connectedEmpty "sensor/+" true = connectedEmpty ∧
    (subscribeAck connectedEmpty "sensor/+" false).subscribedTopics
      = ["sensor/+"] :=
  ⟨rfl, rfl, rfl, rfl⟩

/-- C7 (amended). `subscribe` is fire-and-forget: with an active connection
it returns `true` immediately, leaving the local state untouched; the
subscription set is updated only when the broker acknowledgment reports
success, while an error acknowledgment is logged, not retried, and leaves
the set unchanged.  Without an active connection the call reports failure
and changes nothing. -/
theorem subscribe_ack_updates :
    (∀ (c : ClientState) (p : String), c.connected = true →
      subscribeCall c p = (true, c)) ∧
    (∀ (c : ClientState) (p : String),
      subscribeAck c p false
        = { c with subscribedTopics := setAdd c.subscribedTopics p }) ∧
    (∀ (c : ClientState) (p : String), subscribeAck c p true = c) ∧
    (∀ (c : ClientState) (p : String), c.connected = false →
      subscribeCall c p = (false, c)) := by
  refine ⟨?_, fun c p => rfl, fun c p => rfl, ?_⟩
  · intro c p h
    unfold subscribeCall
    rw [h]
    rfl
  · intro c p h
    unfold subscribeCall
    rw [h]
    rfl

/-- Witness for C7 (amended) at concrete inputs. -/
theorem subscribe_ack_updates_witness :
    subscribeCall connectedEmpty "a" = (true, connectedEmpty) :=
  subscribe_ack_updates.1 connectedEmpty "a" rfl

theorem subscribeCall_snd (c : ClientState) (p : String) :
    (subscribeCall c p).2 = c := by
  unfold subscribeCall
  split <;> rfl

theorem subscribeSuccess_eq (c : ClientState) (p : String) :
    subscribeSuccess c p
      = { c with subscribedTopics := setAdd c.subscribedTopics p } := by
  unfold subscribeSuccess
  rw [subscribeCall_snd]
  rfl

theorem setAdd_mem (l : List String) (x : String) : x ∈ setAdd l x := by
  unfold setAdd
  split
  · assumption
  · simp

theorem setAdd_idem (l : List String) (x : String) :
    setAdd (setAdd l x) x = setAdd l x := by
  by_cases h : x ∈ l
  · simp [setAdd, h]
  · simp [setAdd, h]

theorem setAdd_count (l : List String) (x : String) (h : l.Nodup) :
    (setAdd l x).count x = 1 := by
  by_cases hx : x ∈ l
  · unfold setAdd
    rw [if_pos hx]
    exact List.count_eq_one_of_mem h hx
  · unfold setAdd
    rw [if_neg hx, List.count_append]
    simp [List.count_eq_zero_of_not_mem hx]

theorem setAdd_nodup (l : List String) (x : String) (h : l.Nodup) :
    (setAdd l x).Nodup := by
  by_cases hx : x ∈ l
  · unfold setAdd
    rw [if_pos hx]
    exact h
  · unfold setAdd
    rw [if_neg hx]
    refine List.Nodup.append h (List.nodup_singleton x) ?_
    intro a ha hb
    rw [List.mem_singleton] at hb
    subst hb
    exact hx ha

/-- C8. Idempotent subscribe: a second successful subscribe to the same
pattern changes nothing; after a successful subscribe of `p` into a
duplicate-free set the set holds exactly one entry for `p`; and successful
subscribes keep the set duplicate-free, so no pattern ever appears twice. -/
theorem subscribe_idempotent :
    (∀ (c : ClientState) (p : String),
      subscribeSuccess (subscribeSuccess c p) p = subscribeSuccess c p) ∧
    (∀ (c : ClientState) (p : String), c.subscribedTopics.Nodup →
      (subscribeSuccess c p).subscribedTopics.count p = 1 ∧
      (subscribeSuccess c p).subscribedTopics.Nodup) := by
  constructor
  · intro c p
    rw [subscribeSuccess_eq c p, subscribeSuccess_eq]
    show ClientState.mk c.connected (setAdd (setAdd c.subscribedTopics p) p)
      = ClientState.mk c.connected (setAdd c.subscribedTopics p)
    rw [setAdd_idem]
  · intro c p h
    rw [subscribeSuccess_eq]
    exact ⟨setAdd_count _ _ h, setAdd_nodup _ _ h⟩

/-- Witness for C8 at concrete inputs. -/
theorem subscribe_idempotent_witness :
    subscribeSuccess (subscribeSuccess connectedEmpty "a") "a"
      = subscribeSuccess connectedEmpty "a" ∧
    (subscribeSuccess connectedEmpty "a").subscribedTopics.count "a" = 1 :=
  ⟨subscribe_idempotent.1 connectedEmpty "a",
   (subscribe_idempotent.2 connectedEmpty "a" List.nodup_nil).1⟩
